import Mathlib

/-
Verification of src/src/hotspot/share/memory/heapShared.hpp against its
natural-language specification.

The repository snapshot contains only the header heapShared.hpp.  Definitions
below that embed code visible in that header (inline member functions, static
data members, typedef parameters) are translated directly from it.  Where a
claim depends on a member whose body lives in heapShared.cpp or
heapShared.inline.hpp (not present in the snapshot), the definition is
modelled from the specification and its doc comment says so.

Conventions of the embedding:
  - an oop (object reference) is an address, a `Nat`; the null reference is
    address 0;
  - a Klass pointer is likewise an address, a `Nat`;
  - a narrowOop is a `Nat` holding a 32-bit value;
  - C++ bools are `Bool`; machine words are `Nat` with explicit `% 2 ^ 64`
    where wrap-around matters.
-/

/-! ### Compressed-reference codec (spec section 4.6)

`HeapShared::decode_from_archive` is declared at heapShared.hpp:414 and
`HeapShared::init_narrow_oop_decoding` at heapShared.hpp:416; their bodies are
in heapShared.inline.hpp / heapShared.cpp, which are not in the snapshot, so
the codec is modelled from the spec. -/

/-- Narrow-oop decoding state of `HeapShared`: the static members
`_narrow_oop_base` and `_narrow_oop_shift` declared at heapShared.hpp:251-252
("Used by decode_from_archive"). -/
structure NarrowOopDecoding where
  narrow_oop_base : Nat
  narrow_oop_shift : Nat
deriving DecidableEq, Repr

/-- Modelled from the spec: the body of `HeapShared::init_narrow_oop_decoding`
(declared heapShared.hpp:416) is not in the snapshot.  Spec section 4.6: the
archive carries its own base/shift, established once when the archive's heap
region is chosen; this records the pair into the decoding state. -/
def init_narrow_oop_decoding (base : Nat) (shift : Nat) : NarrowOopDecoding :=
  { narrow_oop_base := base, narrow_oop_shift := shift }

/-- Modelled from the spec: the body of `HeapShared::decode_from_archive`
(declared heapShared.hpp:414) is not in the snapshot.  Spec section 4.6:
`decode(narrow_form, base, shift) -> reference`; "decoding a narrow form of
value zero must yield a null reference, by convention, without invoking the
base/shift arithmetic"; otherwise the reference is base + (narrow << shift),
computed in a 64-bit address word. -/
def decode_from_archive (st : NarrowOopDecoding) (v : Nat) : Nat :=
  if v = 0 then 0
  else (st.narrow_oop_base + v * 2 ^ st.narrow_oop_shift) % 2 ^ 64

/-- Modelled from the spec: `encode(reference, base, shift) -> narrow_form`
(spec section 4.6).  The null reference encodes to the reserved narrow value
zero; any other reference encodes to its region offset scaled down by the
shift. -/
def encode_to_archive (st : NarrowOopDecoding) (r : Nat) : Nat :=
  if r = 0 then 0 else (r - st.narrow_oop_base) / 2 ^ st.narrow_oop_shift

/-- Modelled from the spec: validity of a reference for a chosen (base, shift)
pair (spec section 4.6 "for all valid references").  A valid non-null
reference lies at or above the archive base at an address aligned to the
shift granule, strictly above the base (so that its narrow form is not the
reserved zero), fits a 64-bit address, and its narrow form fits 32 bits. -/
def valid_archive_ref (st : NarrowOopDecoding) (r : Nat) : Prop :=
  r ≠ 0 ∧ st.narrow_oop_base < r ∧ 2 ^ st.narrow_oop_shift ∣ (r - st.narrow_oop_base) ∧
  r < 2 ^ 64 ∧ (r - st.narrow_oop_base) / 2 ^ st.narrow_oop_shift < 2 ^ 32

/-! ### Preservable static field registration

The `PreservableStaticFieldInfo` constructor is fully visible at
heapShared.hpp:62-63. -/

/-- Embedding of `PreservableStaticFieldInfo` (heapShared.hpp:49-73).
`_klass` and `_offset` are not initialized by the constructor and are set
later by `set_klass` / `set_offset`; the unresolved state is `none`. -/
structure PreservableStaticFieldInfo where
  klass_name : String
  field_name : String
  klass : Option Nat
  offset : Option Int
  can_preserve : Bool
deriving DecidableEq, Repr

/-- The `PreservableStaticFieldInfo` constructor (heapShared.hpp:62-63): it
stores the two names and initializes `_can_preserve` to true; `_klass` and
`_offset` are left unset. -/
def mkPreservableStaticFieldInfo (kn : String) (fn : String) :
    PreservableStaticFieldInfo :=
  { klass_name := kn, field_name := fn, klass := none, offset := none,
    can_preserve := true }

/-- Modelled from the spec: the body of
`HeapShared::add_preservable_static_field` (declared heapShared.hpp:320-321)
is not in the snapshot.  Spec section 6 (candidate registration interface):
registration accepts a (class-name, field-name) pair and adds a new
CandidateField to the registered list, constructed by the
`PreservableStaticFieldInfo` constructor. -/
def add_preservable_static_field (fields : List PreservableStaticFieldInfo)
    (kn : String) (fn : String) : List PreservableStaticFieldInfo :=
  fields ++ [mkPreservableStaticFieldInfo kn fn]

/-! ### Capability gating (heapShared.hpp:361-423)

`is_heap_object_archiving_allowed` is fully visible in the header.  The
compiled-out (`INCLUDE_CDS_JAVA_HEAP` = 0) variant of each entry point is
determined by the `NOT_CDS_JAVA_HEAP*` macro written on its declaration:
`NOT_CDS_JAVA_HEAP_RETURN_(v)` gives a body returning `v`, while
`NOT_CDS_JAVA_HEAP_RETURN` gives an empty body, which for a value-returning
function returns no value at all.  (utilities/macros.hpp is not in the
snapshot; the expansions follow the convention used consistently inside
heapShared.hpp itself, e.g. `NOT_CDS_JAVA_HEAP_RETURN_(false)` on the bool
queries at lines 370/375/380/389/397 and `NOT_CDS_JAVA_HEAP_RETURN` on the
void functions at lines 385/393/400/404/407.) -/

/-- Build and runtime configuration consulted by
`HeapShared::is_heap_object_archiving_allowed` (heapShared.hpp:362-365). -/
structure ArchivingConfig where
  include_cds_java_heap : Bool
  useHeapObjectArchiving : Bool
  useG1GC : Bool
  useCompressedOops : Bool
  useCompressedClassPointers : Bool
deriving DecidableEq, Repr

/-- Embedding of `HeapShared::is_heap_object_archiving_allowed`
(heapShared.hpp:362-365): with CDS java heap compiled in it is the
conjunction of the four flags, otherwise constant false. -/
def is_heap_object_archiving_allowed (c : ArchivingConfig) : Bool :=
  if c.include_cds_java_heap then
    c.useHeapObjectArchiving && c.useG1GC && c.useCompressedOops &&
      c.useCompressedClassPointers
  else false

/-- The compiled-out variant of `HeapShared::initialize_from_archived_subgraph`
(heapShared.hpp:408).  The declaration reads
`static bool initialize_from_archived_subgraph(Klass* k) NOT_CDS_JAVA_HEAP_RETURN;`
using the empty-body macro intended for void functions, not
`NOT_CDS_JAVA_HEAP_RETURN_(false)`; the function therefore falls off the end
of a bool-returning body and produces no defined value, modelled as `none`. -/
def initialize_from_archived_subgraph_not_cds (_k : Nat) : Option Bool :=
  none

/-- The compiled-out variant of `HeapShared::decode_from_archive`
(heapShared.hpp:414), declared with `NOT_CDS_JAVA_HEAP_RETURN_(NULL)`: it
returns the null reference for every narrow value. -/
def decode_from_archive_not_cds (_v : Nat) : Option Nat :=
  some 0

/-! ### Region mapping and fixup state (heapShared.hpp:158-161, 335-340, 400)

The static flags and their accessors are fully visible in the header.  The
body of `HeapShared::fixup_mapped_heap_regions` (declared heapShared.hpp:400)
is not in the snapshot and is modelled from spec section 4.7. -/

/-- The archive heap region kinds (spec: closed-archive vs open-archive). -/
inductive RegionKind where
  | closedArchive : RegionKind
  | openArchive : RegionKind
deriving DecidableEq, Repr

/-- The static region-state flags of `HeapShared` (heapShared.hpp:159-161):
per-kind flags for the mapped state
(`_closed_archive_heap_region_mapped`, `_open_archive_heap_region_mapped`)
and a single flag `_archive_heap_region_fixed` for the fixed-up state.
The two `Nat` fields are ghost instrumentation, not program state: they count
how many times fixup has rewritten the regions of each kind. -/
structure HeapSharedRegionState where
  closed_archive_heap_region_mapped : Bool
  open_archive_heap_region_mapped : Bool
  archive_heap_region_fixed : Bool
  closed_fixup_count : Nat
  open_fixup_count : Nat
deriving DecidableEq, Repr

/-- Embedding of `HeapShared::set_archive_heap_region_fixed`
(heapShared.hpp:335-337): sets the single fixed flag to true. -/
def set_archive_heap_region_fixed (s : HeapSharedRegionState) :
    HeapSharedRegionState :=
  { s with archive_heap_region_fixed := true }

/-- Embedding of the query `HeapShared::archive_heap_region_fixed`
(heapShared.hpp:338-340). -/
def archive_heap_region_fixed (s : HeapSharedRegionState) : Bool :=
  s.archive_heap_region_fixed

/-- The fixup guard the code consults for a region of a given kind.  The
header declares exactly one fixed-state query, `archive_heap_region_fixed()`
(heapShared.hpp:338-340), with no kind parameter, and exactly one fixed-state
flag (line 161); the per-kind flags at lines 159-160 track the mapped state
only.  The kind-indexed view of the guard is therefore constant in the
kind. -/
def fixed_flag_for (_kind : RegionKind) (s : HeapSharedRegionState) : Bool :=
  archive_heap_region_fixed s

/-- Modelled from the spec: the body of
`HeapShared::fixup_mapped_heap_regions` (declared heapShared.hpp:400) is not
in the snapshot.  Spec section 4.7: the one fixup entry point rewrites the
marked words of the mapped regions of both kinds, and a second invocation
must be prevented by the one-shot state flag; the only fixup flag the header
declares is `_archive_heap_region_fixed`, so the guard tests it and the
completed pass sets it via `set_archive_heap_region_fixed`.  The ghost
counters record one rewrite of each region kind per unguarded pass. -/
def fixup_mapped_heap_regions (s : HeapSharedRegionState) :
    HeapSharedRegionState :=
  if archive_heap_region_fixed s then s
  else
    set_archive_heap_region_fixed
      { s with closed_fixup_count := s.closed_fixup_count + 1,
               open_fixup_count := s.open_fixup_count + 1 }

/-- Iterated invocations of `fixup_mapped_heap_regions` across one process
lifetime. -/
def iterate_fixup : Nat → HeapSharedRegionState → HeapSharedRegionState
  | 0, s => s
  | n + 1, s => iterate_fixup n (fixup_mapped_heap_regions s)

/-- The initial (process start) region state: nothing mapped, nothing fixed
up, ghost counters zero. -/
def initialRegionState : HeapSharedRegionState :=
  { closed_archive_heap_region_mapped := false,
    open_archive_heap_region_mapped := false,
    archive_heap_region_fixed := false,
    closed_fixup_count := 0,
    open_fixup_count := 0 }

/-! ### Object Cache (heapShared.hpp:169-179, 289-301, 329; spec sections 3, 4.2)

The header fixes the cache's key/value types and its equality function:
`ArchivedObjectCache` is a `ResourceHashtable<oop, oop, oop_hash, oop_equals>`
and `oop_equals(p1, p2)` returns `oopDesc::equals(p1, p2)` (heapShared.hpp:
169-171).  `oopDesc::equals` and the `ResourceHashtable` template are not in
the snapshot; per spec section 3 ("lookups and insertions must agree on object
identity, not structural equality") they are modelled as equality of the oops
themselves (addresses) over an association-list map. -/

/-- Embedding of `HeapShared::oop_equals` (heapShared.hpp:169-171).  Modelled
from the spec: `oopDesc::equals` is not in the snapshot; spec section 3
requires object identity, i.e. equality of the reference addresses. -/
def oop_equals (p1 : Nat) (p2 : Nat) : Bool :=
  p1 == p2

/-- Modelled from the spec: the dump-time map from an original object identity
to its archived copy (spec section 3, Object Cache entry), keyed with
`oop_equals`.  The ResourceHashtable template is not in the snapshot; the map
is an association list. -/
abbrev ArchivedObjectCache : Type :=
  List (Nat × Nat)

/-- Modelled from the spec: cache lookup, `lookup(original) -> archived |
absent` (spec section 4.2), comparing keys with `oop_equals`. -/
def find_archived_heap_object (c : ArchivedObjectCache) (obj : Nat) :
    Option Nat :=
  match c with
  | [] => none
  | (k, v) :: rest =>
      if oop_equals k obj then some v else find_archived_heap_object rest obj

/-- Modelled from the spec: cache insertion, `insert(original, archived)`,
which "requires no prior entry for original" (spec section 4.2); a duplicate
insertion is a programming error, returned as `none`. -/
def cache_insert (c : ArchivedObjectCache) (obj : Nat) (archived : Nat) :
    Option ArchivedObjectCache :=
  match find_archived_heap_object c obj with
  | some _ => none
  | none => some ((obj, archived) :: c)

/-- Caches reachable by guarded insertions from the empty cache created by
`HeapShared::create_archived_object_cache` (heapShared.hpp:289-292). -/
inductive CacheBuilt : ArchivedObjectCache → Prop where
  | empty : CacheBuilt []
  | insert {c c' : ArchivedObjectCache} {obj archived : Nat} :
      CacheBuilt c → cache_insert c obj archived = some c' → CacheBuilt c'

/-! ### Compact Lookup Table (heapShared.hpp:216-232; spec section 4.5)

The header fixes the reader and the match predicate of the run-time table:
`read_record_from_compact_hashtable(base, offset)` dereferences
`base + offset` inside the serialized blob, and
`record_equals_compact_hashtable_entry(value, key)` compares
`value->klass() == key` (heapShared.hpp:216-222).  The `CompactHashtable`
template itself (classfile/compactHashtable.hpp) is not in the snapshot;
its bucketed layout and lookup are modelled from spec section 4.5. -/

/-- Embedding of `ArchivedKlassSubGraphInfoRecord` (heapShared.hpp:130-151):
the owning class, the flattened entry-field records (`Array<juint>`), the
flattened class list (`Array<Klass*>`), and the partial-pre-init flag. -/
structure ArchivedKlassSubGraphInfoRecord where
  k : Nat
  entry_field_records : List Nat
  subgraph_object_klasses : List Nat
  is_partial_pre_init : Bool
deriving DecidableEq, Repr

/-- Embedding of `HeapShared::read_record_from_compact_hashtable`
(heapShared.hpp:216-218): the record at `base_address + offset` inside the
serialized blob.  The blob's record storage is a list and the relative
offset is an index into it; an offset outside the blob has no record. -/
def read_record_from_compact_hashtable
    (records : List ArchivedKlassSubGraphInfoRecord) (offset : Nat) :
    Option ArchivedKlassSubGraphInfoRecord :=
  records[offset]?

/-- Embedding of `HeapShared::record_equals_compact_hashtable_entry`
(heapShared.hpp:220-222): a stored record matches a lookup key exactly when
`value->klass() == key`. -/
def record_equals_compact_hashtable_entry
    (value : ArchivedKlassSubGraphInfoRecord) (key : Nat) : Bool :=
  value.k == key

/-- Modelled from the spec: the serialized form of the run-time table
(`RunTimeKlassSubGraphInfoTable`, heapShared.hpp:224-232; spec section 4.5):
a bucket array holding record offsets relative to the blob's own base, plus
the flattened record storage. -/
structure RunTimeKlassSubGraphInfoTable where
  bucket_count : Nat
  buckets : List (List Nat)
  records : List ArchivedKlassSubGraphInfoRecord
deriving DecidableEq, Repr

/-- Modelled from the spec: building (finalizing) the compact table at dump
time (spec section 4.5): the hash function and bucket count are fixed at
build time; every inserted record is stored in the blob and its relative
offset is filed under the bucket of its class's hash. -/
def build_run_time_table (hash : Nat → Nat) (nbuckets : Nat)
    (entries : List ArchivedKlassSubGraphInfoRecord) :
    RunTimeKlassSubGraphInfoTable :=
  { bucket_count := nbuckets,
    buckets :=
      (List.range nbuckets).map (fun b =>
        (List.range entries.length).filter (fun i =>
          match entries[i]? with
          | some r => hash r.k % nbuckets == b
          | none => false)),
    records := entries }

/-- Modelled from the spec: loading the finalized bytes (spec section 4.5).
The blob is position-independent (all offsets relative to its own base) and
is mapped and used in place, so loading returns the table unchanged. -/
def load_run_time_table (t : RunTimeKlassSubGraphInfoTable) :
    RunTimeKlassSubGraphInfoTable :=
  t

/-- Modelled from the spec: the scan of one bucket during lookup, reading
each offset with `read_record_from_compact_hashtable` and matching with
`record_equals_compact_hashtable_entry` (spec section 4.5 together with
heapShared.hpp:216-222). -/
def scan_bucket (records : List ArchivedKlassSubGraphInfoRecord)
    (offsets : List Nat) (key : Nat) :
    Option ArchivedKlassSubGraphInfoRecord :=
  match offsets with
  | [] => none
  | off :: rest =>
      match read_record_from_compact_hashtable records off with
      | none => scan_bucket records rest key
      | some r =>
          if record_equals_compact_hashtable_entry r key then some r
          else scan_bucket records rest key

/-- Modelled from the spec: run-time lookup, `lookup(class) -> record |
absent` (spec section 4.5): hash the key with the build-time hash function,
select its bucket, scan the bucket. -/
def table_lookup (hash : Nat → Nat) (t : RunTimeKlassSubGraphInfoTable)
    (key : Nat) : Option ArchivedKlassSubGraphInfoRecord :=
  if t.bucket_count = 0 then none
  else scan_bucket t.records (t.buckets.getD (hash key % t.bucket_count) []) key

/-! ### Subgraph recorder walk (heapShared.hpp:254-276, 313-316, 347-356;
spec section 4.3)

The bodies of `HeapShared::archive_reachable_objects_from` and of the
seen-objects bookkeeping are in heapShared.cpp, which is not in the snapshot;
the walk is modelled from spec section 4.3 (and the worklist formulation of
spec section 9): a depth-first traversal driven by the seen-objects table
(`_seen_objects_table`, heapShared.hpp:254-260), short-circuiting through the
Object Cache, collecting the classes of the objects encountered. -/

/-- Modelled from the spec: the graph-walk interface the recorder consumes
(spec section 6): a finite universe of live objects, each with its outgoing
references and its runtime class. -/
structure LiveHeap where
  univ : List Nat
  fields : Nat → List Nat
  klassOf : Nat → Nat

/-- A heap is closed when every reference out of a universe object stays in
the universe. -/
def LiveHeap.closed (h : LiveHeap) : Prop :=
  ∀ o ∈ h.univ, ∀ f ∈ h.fields o, f ∈ h.univ

/-- The mutable state of one recording session: the seen-objects table
(heapShared.hpp:254-260), the Object Cache, the deduplicated class list of
the root's `KlassSubGraphInfo` (heapShared.hpp:86), the pending worklist of
originals still to process, and the allocator for archived copies (archived
addresses start at 1; address 0 is the null reference). -/
structure RecordingState where
  seen : List Nat
  cache : ArchivedObjectCache
  klasses : List Nat
  stack : List Nat
  next_archived : Nat
deriving DecidableEq, Repr

/-- Embedding of `HeapShared::has_been_seen_during_subgraph_recording`
(declared heapShared.hpp:275).  Modelled from the spec: its body is not in
the snapshot; it tests membership in the seen-objects table. -/
def has_been_seen_during_subgraph_recording (s : RecordingState) (o : Nat) :
    Bool :=
  s.seen.contains o

/-- Modelled from the spec: one step of the recording walk (spec section
4.3).  The head of the worklist is examined: an object already seen is
dropped (the cache hit short-circuits re-walking, which is how cyclic graphs
terminate, spec section 4.2); an unseen object is marked seen, given a fresh
archived counterpart in the Object Cache, has its class recorded
(deduplicated) into the subgraph class list, and has all its outgoing
references pushed for processing.  `none` means the worklist is empty and
the walk is complete. -/
def walk_step (h : LiveHeap) (s : RecordingState) : Option RecordingState :=
  match s.stack with
  | [] => none
  | o :: rest =>
      if has_been_seen_during_subgraph_recording s o then
        some { s with stack := rest }
      else
        some { seen := o :: s.seen,
               cache := (o, s.next_archived) :: s.cache,
               klasses :=
                 if s.klasses.contains (h.klassOf o) then s.klasses
                 else h.klassOf o :: s.klasses,
               stack := h.fields o ++ rest,
               next_archived := s.next_archived + 1 }

/-- Runs the walk for at most the given number of steps. -/
def walk_run (h : LiveHeap) : Nat → RecordingState → RecordingState
  | 0, s => s
  | n + 1, s =>
      match walk_step h s with
      | none => s
      | some s' => walk_run h n s'

/-- Number of universe objects not yet in the seen-objects table. -/
def unseen_count (h : LiveHeap) (s : RecordingState) : Nat :=
  (h.univ.filter (fun o => ! s.seen.contains o)).length

/-- One more than the largest outgoing-reference count of any universe
object. -/
def fields_bound (h : LiveHeap) : Nat :=
  1 + (h.univ.map (fun o => (h.fields o).length)).foldr max 0

/-- Termination measure of the walk: unseen objects weighted by the field
bound, plus the pending worklist length. -/
def walk_measure (h : LiveHeap) (s : RecordingState) : Nat :=
  unseen_count h s * fields_bound h + s.stack.length

/-- The state at the start of one recording of a root entry value: empty
seen-objects table (`init_seen_objects_table`, heapShared.hpp:279-282),
empty Object Cache, empty class list, the entry value pending. -/
def initial_recording_state (root : Nat) : RecordingState :=
  { seen := [], cache := [], klasses := [], stack := [root],
    next_archived := 1 }

/-- Modelled from the spec: `HeapShared::archive_reachable_objects_from`
(declared heapShared.hpp:347-351), the recording walk from one entry value
run to completion; the walk measure bounds the number of steps needed. -/
def archive_reachable_objects_from (h : LiveHeap) (root : Nat) :
    RecordingState :=
  walk_run h (walk_measure h (initial_recording_state root))
    (initial_recording_state root)

/-- Modelled from the spec: the references held by the archived counterpart
of an original object — each original outgoing reference resolved through
the Object Cache to its archived counterpart (spec section 4.3: a cache hit
short-circuits to the cached archived identity). -/
def archived_fields (h : LiveHeap) (c : ArchivedObjectCache) (o : Nat) :
    List (Option Nat) :=
  (h.fields o).map (fun f => find_archived_heap_object c f)

/-- Objects reachable from a root through outgoing references. -/
inductive Reachable (h : LiveHeap) (root : Nat) : Nat → Prop where
  | refl : Reachable h root root
  | step {x y : Nat} : Reachable h root x → y ∈ h.fields x →
      Reachable h root y

/-- The cyclic two-object graph of spec section 8: object a references b and
b references a. -/
def cycle_heap (a : Nat) (b : Nat) : LiveHeap :=
  { univ := [a, b],
    fields := fun o => if o = a then [b] else if o = b then [a] else [],
    klassOf := fun _ => 7 }

/-- Modelled from the spec: the per-root recording pipeline
(`HeapShared::archive_reachable_objects_from_static_field`, declared
heapShared.hpp:313-316, followed by `ArchivedKlassSubGraphInfoRecord::init`,
declared heapShared.hpp:146): walk the entry value's subgraph, then compact
the result into a record — one (field offset, encoded entry value,
closed-archive flag) entry-field triple (heapShared.hpp:87-90) plus the
collected class list and the partial-pre-init flag. -/
def record_subgraph_from_static_field (h : LiveHeap) (k : Nat)
    (field_offset : Nat) (entry_value : Nat) (is_closed_archive : Bool)
    (ipp : Bool) : ArchivedKlassSubGraphInfoRecord :=
  let s := archive_reachable_objects_from h entry_value
  { k := k,
    entry_field_records :=
      [field_offset, (find_archived_heap_object s.cache entry_value).getD 0,
       if is_closed_archive then 1 else 0],
    subgraph_object_klasses := s.klasses,
    is_partial_pre_init := ipp }

/-- Pointwise agreement of two live heaps: byte-identical live state (spec
section 8, determinism): the same universe, and identical outgoing
references and runtime class for every universe object. -/
def LiveHeap.agrees (h1 : LiveHeap) (h2 : LiveHeap) : Prop :=
  h1.univ = h2.univ ∧
  ∀ o ∈ h1.univ, h1.fields o = h2.fields o ∧ h1.klassOf o = h2.klassOf o

/-- Invariant of the recording walk: every pending original is a universe
object; the seen-objects table and the Object Cache keys coincide (an object
is marked seen exactly when its archived counterpart is created, spec
section 4.3); the seen-objects table has no duplicates; every reference out
of a seen object is either already seen or still pending; and the root is
either seen or pending. -/
def WalkInv (h : LiveHeap) (root : Nat) (s : RecordingState) : Prop :=
  (∀ x ∈ s.stack, x ∈ h.univ) ∧
  s.seen = s.cache.map Prod.fst ∧
  s.seen.Nodup ∧
  (∀ x ∈ s.seen, ∀ f ∈ h.fields x, f ∈ s.seen ∨ f ∈ s.stack) ∧
  (root ∈ s.seen ∨ root ∈ s.stack)

/-- A heap agreeing with `cycle_heap 0 1` on its universe but differing on
an object outside it (address 99). -/
def cycle_heap_variant : LiveHeap :=
  { univ := [0, 1],
    fields := fun o => if o = 0 then [1] else if o = 1 then [0] else [99],
    klassOf := fun _ => 7 }

/-! ### Helper lemmas -/

/-- A cache lookup misses exactly when the original is not among the cache
keys. -/
theorem find_archived_heap_object_eq_none {c : ArchivedObjectCache}
    {o : Nat} : find_archived_heap_object c o = none ↔ o ∉ c.map Prod.fst := by
  induction c with
  | nil => simp [find_archived_heap_object]
  | cons p rest ih =>
      obtain ⟨k, v⟩ := p
      by_cases hk : k = o
      · subst hk
        simp [find_archived_heap_object, oop_equals]
      · simp [find_archived_heap_object, oop_equals, hk, ih, Ne.symm hk]

/-- A cache lookup hits exactly when the original is among the cache keys. -/
theorem find_archived_heap_object_isSome {c : ArchivedObjectCache}
    {o : Nat} :
    (∃ a, find_archived_heap_object c o = some a) ↔ o ∈ c.map Prod.fst := by
  rw [← not_iff_not, not_exists]
  constructor
  · intro h
    exact find_archived_heap_object_eq_none.mp
      (Option.eq_none_iff_forall_not_mem.mpr (by
        intro a ha
        exact h a ha))
  · intro h a ha
    rw [find_archived_heap_object_eq_none.mpr h] at ha
    exact Option.noConfusion ha

/-- Every cache reachable by guarded insertions has pairwise distinct keys:
at most one archived counterpart per original object. -/
theorem cacheBuilt_keys_nodup {c : ArchivedObjectCache} (h : CacheBuilt c) :
    (c.map Prod.fst).Nodup := by
  induction h with
  | empty => simp
  | insert hb hins ih =>
      rename_i c c' obj archived
      unfold cache_insert at hins
      cases hfind : find_archived_heap_object c obj with
      | some a => rw [hfind] at hins; exact Option.noConfusion hins
      | none =>
          rw [hfind] at hins
          injection hins with hins
          subst hins
          simp only [List.map_cons, List.nodup_cons]
          exact ⟨find_archived_heap_object_eq_none.mp hfind, ih⟩

/-- The flag set by a completed fixup pass makes any later invocation a
no-op. -/
theorem fixup_noop_of_fixed {s : HeapSharedRegionState}
    (h : archive_heap_region_fixed s = true) :
    fixup_mapped_heap_regions s = s := by
  simp [fixup_mapped_heap_regions, h]

/-! ### Claim theorems: codec, registration, capability, fixup, cache -/

/-- C3: for every (base, shift) pair established via
`init_narrow_oop_decoding` and every valid reference r, decoding the
encoding of r under that pair returns r. -/
theorem decode_from_archive_encode_roundtrip (base : Nat) (shift : Nat)
    (r : Nat) (hvalid : valid_archive_ref (init_narrow_oop_decoding base shift) r) :
    decode_from_archive (init_narrow_oop_decoding base shift)
      (encode_to_archive (init_narrow_oop_decoding base shift) r) = r := by
  obtain ⟨hr0, hlt, hdvd, hfit, _hnarrow⟩ := hvalid
  simp only [init_narrow_oop_decoding] at hlt hdvd ⊢
  have hpos : 0 < r - base := Nat.sub_pos_of_lt hlt
  have hge : 2 ^ shift ≤ r - base := Nat.le_of_dvd hpos hdvd
  have hdivpos : 0 < (r - base) / 2 ^ shift :=
    Nat.div_pos hge (Nat.pow_pos (by norm_num))
  have henc : encode_to_archive ⟨base, shift⟩ r = (r - base) / 2 ^ shift := by
    simp [encode_to_archive, hr0]
  rw [henc]
  have hne : (r - base) / 2 ^ shift ≠ 0 := Nat.pos_iff_ne_zero.mp hdivpos
  simp only [decode_from_archive, hne, if_false, if_neg hne]
  rw [Nat.div_mul_cancel hdvd]
  have hsum : base + (r - base) = r := by omega
  rw [hsum, Nat.mod_eq_of_lt hfit]

/-- Witness for C3 at base 4096, shift 3, reference 4104. -/
theorem decode_from_archive_encode_roundtrip_witness :
    valid_archive_ref (init_narrow_oop_decoding 4096 3) 4104 ∧
    decode_from_archive (init_narrow_oop_decoding 4096 3)
      (encode_to_archive (init_narrow_oop_decoding 4096 3) 4104) = 4104 := by
  have hvalid : valid_archive_ref (init_narrow_oop_decoding 4096 3) 4104 := by
    unfold valid_archive_ref init_narrow_oop_decoding
    refine ⟨?_, ?_, ?_, ?_, ?_⟩ <;> norm_num
  exact ⟨hvalid, decode_from_archive_encode_roundtrip 4096 3 4104 hvalid⟩

/-- C4: decoding the narrow value zero yields the null reference for every
(base, shift) configuration, and the result does not depend on the base or
shift at all. -/
theorem decode_from_archive_zero_yields_null (base : Nat) (shift : Nat)
    (base' : Nat) (shift' : Nat) :
    decode_from_archive (init_narrow_oop_decoding base shift) 0 = 0 ∧
    decode_from_archive (init_narrow_oop_decoding base shift) 0 =
      decode_from_archive (init_narrow_oop_decoding base' shift') 0 :=
  ⟨rfl, rfl⟩

/-- C8: every field registered via `add_preservable_static_field` is
constructed by the `PreservableStaticFieldInfo` constructor with its
eligibility flag set: immediately after registration, `can_preserve()` is
true for the newly appended field, before any object-pass checking runs. -/
theorem add_preservable_static_field_starts_preservable
    (fields : List PreservableStaticFieldInfo) (kn : String) (fn : String) :
    ∃ info, (add_preservable_static_field fields kn fn).getLast? = some info ∧
      info.can_preserve = true ∧ info.klass_name = kn ∧
      info.field_name = fn := by
  refine ⟨mkPreservableStaticFieldInfo kn fn, ?_, rfl, rfl, rfl⟩
  simp [add_preservable_static_field]

/-- C2 (code-bug evidence): with the capability compiled out,
`is_heap_object_archiving_allowed` is false and `decode_from_archive`
returns null, but `initialize_from_archived_subgraph` — declared with the
empty-body macro `NOT_CDS_JAVA_HEAP_RETURN` despite returning bool
(heapShared.hpp:408) — yields no value at all instead of reporting
failure. -/
theorem initialize_from_archived_subgraph_not_cds_no_value :
    is_heap_object_archiving_allowed
      { include_cds_java_heap := false, useHeapObjectArchiving := true,
        useG1GC := true, useCompressedOops := true,
        useCompressedClassPointers := true } = false ∧
    decode_from_archive_not_cds 7 = some 0 ∧
    initialize_from_archived_subgraph_not_cds 0 = none ∧
    initialize_from_archived_subgraph_not_cds 0 ≠ some false := by
  decide

/-- C1 (counterexample): the fixed-up state flag is not maintained
separately for each region kind — the header declares a single flag
`_archive_heap_region_fixed`, so the guard consulted for closed-archive
regions and the guard consulted for open-archive regions coincide in every
state. -/
theorem fixed_flag_not_per_region_kind :
    ¬ ∃ s : HeapSharedRegionState,
        fixed_flag_for RegionKind.closedArchive s ≠
          fixed_flag_for RegionKind.openArchive s := by
  rintro ⟨s, h⟩
  exact h rfl

/-- C1 (amended): a second invocation of region fixup is prevented by the
single one-shot flag `_archive_heap_region_fixed` shared by both region
kinds: across any number of `fixup_mapped_heap_regions` invocations in one
process lifetime, the regions of each kind are rewritten at most once, and
once the flag is set every further invocation is a no-op. -/
theorem fixup_mapped_heap_regions_at_most_once (s0 : HeapSharedRegionState)
    (n : Nat) (hflag : archive_heap_region_fixed s0 = false)
    (hc : s0.closed_fixup_count = 0) (ho : s0.open_fixup_count = 0) :
    (iterate_fixup n s0).closed_fixup_count ≤ 1 ∧
    (iterate_fixup n s0).open_fixup_count ≤ 1 ∧
    (archive_heap_region_fixed (iterate_fixup n s0) = true →
      fixup_mapped_heap_regions (iterate_fixup n s0) = iterate_fixup n s0) := by
  have key : ∀ (m : Nat) (s : HeapSharedRegionState),
      ((archive_heap_region_fixed s = false ∧ s.closed_fixup_count = 0 ∧
          s.open_fixup_count = 0) ∨
        (s.closed_fixup_count ≤ 1 ∧ s.open_fixup_count ≤ 1 ∧
          archive_heap_region_fixed s = true)) →
      (iterate_fixup m s).closed_fixup_count ≤ 1 ∧
      (iterate_fixup m s).open_fixup_count ≤ 1 := by
    intro m
    induction m with
    | zero =>
        intro s hs
        rcases hs with ⟨_, h2, h3⟩ | ⟨h2, h3, _⟩ <;>
          simp only [iterate_fixup] <;> omega
    | succ k ih =>
        intro s hs
        simp only [iterate_fixup]
        apply ih
        rcases hs with ⟨h1, h2, h3⟩ | ⟨h1, h2, h3⟩
        · right
          have h1' : s.archive_heap_region_fixed = false := h1
          have hfix : fixup_mapped_heap_regions s =
              { s with archive_heap_region_fixed := true,
                       closed_fixup_count := s.closed_fixup_count + 1,
                       open_fixup_count := s.open_fixup_count + 1 } := by
            simp [fixup_mapped_heap_regions, archive_heap_region_fixed,
              set_archive_heap_region_fixed, h1']
          rw [hfix]
          refine ⟨by simp; omega, by simp; omega, rfl⟩
        · right
          rw [fixup_noop_of_fixed h3]
          exact ⟨h1, h2, h3⟩
  refine ⟨(key n s0 (Or.inl ⟨hflag, hc, ho⟩)).1,
          (key n s0 (Or.inl ⟨hflag, hc, ho⟩)).2, ?_⟩
  intro hfixed
  exact fixup_noop_of_fixed hfixed

/-- Witness for C1 at the initial state, three invocations. -/
theorem fixup_mapped_heap_regions_at_most_once_witness :
    archive_heap_region_fixed initialRegionState = false ∧
    (iterate_fixup 3 initialRegionState).closed_fixup_count ≤ 1 ∧
    (iterate_fixup 3 initialRegionState).open_fixup_count ≤ 1 :=
  ⟨rfl,
   (fixup_mapped_heap_regions_at_most_once initialRegionState 3 rfl rfl rfl).1,
   (fixup_mapped_heap_regions_at_most_once initialRegionState 3 rfl rfl rfl).2.1⟩

/-- C5: throughout a dump session every original has at most one archived
counterpart (guarded insertion keeps the cache keys pairwise distinct), and
the cache is keyed by identity, not structural equality: two structurally
equal but distinct originals get independent entries, each found by its own
identity. -/
theorem archived_object_cache_identity_keyed
    (c c1 c2 : ArchivedObjectCache) (content : Nat → List Nat)
    (o1 o2 a1 a2 : Nat) (hbuilt : CacheBuilt c) (hne : o1 ≠ o2)
    (_hstruct : content o1 = content o2)
    (h1 : cache_insert c o1 a1 = some c1)
    (h2 : cache_insert c1 o2 a2 = some c2) :
    CacheBuilt c2 ∧ (c2.map Prod.fst).Nodup ∧
    find_archived_heap_object c2 o1 = some a1 ∧
    find_archived_heap_object c2 o2 = some a2 := by
  have hb2 : CacheBuilt c2 :=
    CacheBuilt.insert (CacheBuilt.insert hbuilt h1) h2
  have hc1 : c1 = (o1, a1) :: c := by
    unfold cache_insert at h1
    cases hfind : find_archived_heap_object c o1 with
    | some a => rw [hfind] at h1; exact Option.noConfusion h1
    | none => rw [hfind] at h1; injection h1 with h1; exact h1.symm
  have hc2 : c2 = (o2, a2) :: c1 := by
    unfold cache_insert at h2
    cases hfind : find_archived_heap_object c1 o2 with
    | some a => rw [hfind] at h2; exact Option.noConfusion h2
    | none => rw [hfind] at h2; injection h2 with h2; exact h2.symm
  subst hc1
  subst hc2
  refine ⟨hb2, cacheBuilt_keys_nodup hb2, ?_, ?_⟩
  · simp [find_archived_heap_object, oop_equals, hne, Ne.symm hne]
  · simp [find_archived_heap_object, oop_equals]

/-- Witness for C5: originals 10 and 20 with identical structural content
get the distinct archived counterparts 1 and 2. -/
theorem archived_object_cache_identity_keyed_witness :
    cache_insert [] 10 1 = some [(10, 1)] ∧
    cache_insert [(10, 1)] 20 2 = some [(20, 2), (10, 1)] ∧
    CacheBuilt [(20, 2), (10, 1)] ∧
    (([(20, 2), (10, 1)] : ArchivedObjectCache).map Prod.fst).Nodup ∧
    find_archived_heap_object [(20, 2), (10, 1)] 10 = some 1 ∧
    find_archived_heap_object [(20, 2), (10, 1)] 20 = some 2 := by
  have h := archived_object_cache_identity_keyed [] [(10, 1)]
    [(20, 2), (10, 1)] (fun _ => [5]) 10 20 1 2 CacheBuilt.empty
    (by decide) rfl (by decide) (by decide)
  exact ⟨by decide, by decide, h.1, h.2.1, h.2.2.1, h.2.2.2⟩

/-! ### Claim theorems: compact lookup table -/

/-- A bucket scan only ever returns a record whose stored class passes
`record_equals_compact_hashtable_entry` for the looked-up key. -/
theorem scan_bucket_matches {records : List ArchivedKlassSubGraphInfoRecord}
    {offsets : List Nat} {key : Nat} {r : ArchivedKlassSubGraphInfoRecord}
    (h : scan_bucket records offsets key = some r) : r.k = key := by
  induction offsets with
  | nil => exact Option.noConfusion h
  | cons off rest ih =>
      unfold scan_bucket at h
      split at h
      · exact ih h
      · rename_i r' hread
        split at h
        · rename_i hm
          injection h with h
          subst h
          simpa [record_equals_compact_hashtable_entry, beq_iff_eq] using hm
        · exact ih h

/-- A bucket scan finds the record r when some offset in the bucket reads
back r with a matching class, and r is the only record in the bucket
matching the key. -/
theorem scan_bucket_finds {records : List ArchivedKlassSubGraphInfoRecord}
    {offsets : List Nat} {key : Nat} {r : ArchivedKlassSubGraphInfoRecord}
    (hex : ∃ off ∈ offsets,
      read_record_from_compact_hashtable records off = some r ∧ r.k = key)
    (huniq : ∀ off ∈ offsets, ∀ r',
      read_record_from_compact_hashtable records off = some r' →
      r'.k = key → r' = r) :
    scan_bucket records offsets key = some r := by
  induction offsets with
  | nil =>
      obtain ⟨off, hoff, _⟩ := hex
      exact absurd hoff (List.not_mem_nil off)
  | cons off rest ih =>
      unfold scan_bucket
      split
      · rename_i hread
        apply ih
        · obtain ⟨o, ho, hro, hk⟩ := hex
          rcases List.mem_cons.mp ho with rfl | ho'
          · rw [hread] at hro
            exact Option.noConfusion hro
          · exact ⟨o, ho', hro, hk⟩
        · intro o ho r' h1 h2
          exact huniq o (List.mem_cons_of_mem off ho) r' h1 h2
      · rename_i r' hread
        split
        · rename_i hm
          have hk' : r'.k = key := by
            simpa [record_equals_compact_hashtable_entry, beq_iff_eq]
              using hm
          rw [huniq off (List.mem_cons_self off rest) r' hread hk']
        · rename_i hm
          apply ih
          · obtain ⟨o, ho, hro, hk⟩ := hex
            rcases List.mem_cons.mp ho with rfl | ho'
            · rw [hread] at hro
              injection hro with hro
              subst hro
              exact absurd
                (by simp [record_equals_compact_hashtable_entry, hk]) hm
            · exact ⟨o, ho', hro, hk⟩
          · intro o ho r'' h1 h2
            exact huniq o (List.mem_cons_of_mem off ho) r'' h1 h2

/-- C10: for every class key and every record returned by a successful
run-time lookup in the subgraph-info table, the record's klass equals the
key — the match predicate compares only class identity, so a lookup can
never return another class's record. -/
theorem table_lookup_klass_matches (hash : Nat → Nat)
    (t : RunTimeKlassSubGraphInfoTable) (key : Nat)
    (r : ArchivedKlassSubGraphInfoRecord)
    (h : table_lookup hash t key = some r) : r.k = key := by
  unfold table_lookup at h
  by_cases hb : t.bucket_count = 0
  · rw [if_pos hb] at h
    exact Option.noConfusion h
  · rw [if_neg hb] at h
    exact scan_bucket_matches h

/-- Witness for C10 on a one-record table. -/
theorem table_lookup_klass_matches_witness :
    table_lookup id (build_run_time_table id 3 [⟨5, [], [], false⟩]) 5 =
      some ⟨5, [], [], false⟩ ∧
    (⟨5, [], [], false⟩ : ArchivedKlassSubGraphInfoRecord).k = 5 :=
  ⟨by decide,
   table_lookup_klass_matches id
     (build_run_time_table id 3 [⟨5, [], [], false⟩]) 5
     ⟨5, [], [], false⟩ (by decide)⟩

/-- C6: for every record inserted into the compact table before
finalization (one record per class, keyed by the class stored in the
record), looking its class up after loading the finalized bytes returns a
record field-wise equal to the inserted one. -/
theorem table_lookup_after_build_load (hash : Nat → Nat) (nbuckets : Nat)
    (entries : List ArchivedKlassSubGraphInfoRecord)
    (r : ArchivedKlassSubGraphInfoRecord) (hb : 0 < nbuckets)
    (hnodup : (entries.map (fun e => e.k)).Nodup) (hmem : r ∈ entries) :
    table_lookup hash
      (load_run_time_table (build_run_time_table hash nbuckets entries))
      r.k = some r := by
  obtain ⟨i, hi⟩ := List.mem_iff_getElem?.mp hmem
  have hilen : i < entries.length := (List.getElem?_eq_some.mp hi).1
  unfold load_run_time_table table_lookup build_run_time_table
  rw [if_neg (Nat.pos_iff_ne_zero.mp hb)]
  have hblt : hash r.k % nbuckets < nbuckets := Nat.mod_lt _ hb
  rw [List.getD_eq_getElem?_getD, List.getElem?_map,
    List.getElem?_range hblt]
  simp only [Option.map_some', Option.getD_some]
  apply scan_bucket_finds
  · refine ⟨i, ?_, hi, rfl⟩
    rw [List.mem_filter]
    refine ⟨List.mem_range.mpr hilen, ?_⟩
    rw [hi]
    simp
  · intro off hoff r' hread hkey
    rw [List.mem_filter] at hoff
    have hread' : entries[off]? = some r' := hread
    have hofflen : off < entries.length :=
      (List.getElem?_eq_some.mp hread').1
    have hmapoff : (entries.map (fun e => e.k))[off]? = some r'.k := by
      rw [List.getElem?_map, hread']
      rfl
    have hmapi : (entries.map (fun e => e.k))[i]? = some r.k := by
      rw [List.getElem?_map, hi]
      rfl
    have hoi : off = i := by
      apply List.getElem?_inj (by simpa using hofflen) hnodup
      rw [hmapoff, hmapi, hkey]
    subst hoi
    rw [hread'] at hi
    injection hi with hi

/-- Witness for C6 on a two-record table. -/
theorem table_lookup_after_build_load_witness :
    (0 : Nat) < 3 ∧
    (([⟨5, [1, 2], [5], false⟩, ⟨9, [], [9], true⟩] :
        List ArchivedKlassSubGraphInfoRecord).map (fun e => e.k)).Nodup ∧
    table_lookup id (load_run_time_table (build_run_time_table id 3
        [⟨5, [1, 2], [5], false⟩, ⟨9, [], [9], true⟩]))
      (⟨9, [], [9], true⟩ : ArchivedKlassSubGraphInfoRecord).k =
      some ⟨9, [], [9], true⟩ :=
  ⟨by decide, by decide,
   table_lookup_after_build_load id 3
     [⟨5, [1, 2], [5], false⟩, ⟨9, [], [9], true⟩]
     ⟨9, [], [9], true⟩ (by decide) (by decide) (by decide)⟩

/-! ### Walk lemmas -/

/-- Every member of a list of naturals is bounded by its max fold. -/
theorem le_foldr_max {a : Nat} {l : List Nat} (h : a ∈ l) :
    a ≤ l.foldr max 0 := by
  induction l with
  | nil => cases h
  | cons b t ih =>
      rcases List.mem_cons.mp h with rfl | h'
      · exact le_max_left _ _
      · exact le_trans (ih h') (le_max_right _ _)

/-- Filtering with a stronger predicate keeps at most as many elements. -/
theorem length_filter_le_of_imp {α : Type} {p q : α → Bool}
    (himp : ∀ x, p x = true → q x = true) (l : List α) :
    (l.filter p).length ≤ (l.filter q).length := by
  induction l with
  | nil => simp
  | cons b t ih =>
      cases hp : p b
      · cases hq : q b
        · rw [List.filter_cons_of_neg (by simp [hp]),
            List.filter_cons_of_neg (by simp [hq])]
          exact ih
        · rw [List.filter_cons_of_neg (by simp [hp]),
            List.filter_cons_of_pos hq]
          exact Nat.le_succ_of_le ih
      · rw [List.filter_cons_of_pos hp,
          List.filter_cons_of_pos (himp b hp)]
        simpa using ih

/-- Filtering with a strictly stronger predicate — one that rejects a listed
element the weaker one accepts — keeps strictly fewer elements. -/
theorem length_filter_lt_of_witness {α : Type} {p q : α → Bool} {l : List α}
    {o : α} (himp : ∀ x, p x = true → q x = true) (ho : o ∈ l)
    (hq : q o = true) (hp : p o = false) :
    (l.filter p).length < (l.filter q).length := by
  induction l with
  | nil => cases ho
  | cons b t ih =>
      rcases List.mem_cons.mp ho with rfl | ho'
      · rw [List.filter_cons_of_neg (by simp [hp]),
          List.filter_cons_of_pos hq]
        exact Nat.lt_succ_of_le (length_filter_le_of_imp himp t)
      · cases hpb : p b
        · cases hqb : q b
          · rw [List.filter_cons_of_neg (by simp [hpb]),
              List.filter_cons_of_neg (by simp [hqb])]
            exact ih ho'
          · rw [List.filter_cons_of_neg (by simp [hpb]),
              List.filter_cons_of_pos hqb]
            exact Nat.lt_succ_of_lt (ih ho')
        · rw [List.filter_cons_of_pos hpb,
            List.filter_cons_of_pos (himp b hpb)]
          simpa using ih ho'

/-- Case analysis of one successful walk step: the worklist head is either
dropped (already seen) or processed (marked seen, archived, class recorded,
references pushed). -/
theorem walk_step_cases {h : LiveHeap} {s s' : RecordingState}
    (hstep : walk_step h s = some s') :
    ∃ o rest, s.stack = o :: rest ∧
      ((has_been_seen_during_subgraph_recording s o = true ∧
          s' = { s with stack := rest }) ∨
        (has_been_seen_during_subgraph_recording s o = false ∧
          s' = { seen := o :: s.seen,
                 cache := (o, s.next_archived) :: s.cache,
                 klasses :=
                   if s.klasses.contains (h.klassOf o) then s.klasses
                   else h.klassOf o :: s.klasses,
                 stack := h.fields o ++ rest,
                 next_archived := s.next_archived + 1 })) := by
  unfold walk_step at hstep
  split at hstep
  · exact Option.noConfusion hstep
  · rename_i o rest heq
    refine ⟨o, rest, heq, ?_⟩
    split at hstep
    · rename_i hseen
      left
      injection hstep with hstep
      exact ⟨hseen, hstep.symm⟩
    · rename_i hseen
      right
      injection hstep with hstep
      exact ⟨by simpa using hseen, hstep.symm⟩

/-- The walk step yields nothing exactly when the worklist is empty. -/
theorem walk_step_eq_none {h : LiveHeap} {s : RecordingState} :
    walk_step h s = none ↔ s.stack = [] := by
  constructor
  · intro hnone
    unfold walk_step at hnone
    split at hnone
    · rename_i heq
      exact heq
    · split at hnone <;> exact Option.noConfusion hnone
  · intro hnil
    unfold walk_step
    rw [hnil]

/-- One walk step preserves the walk invariant. -/
theorem walk_step_preserves_inv {h : LiveHeap} {root : Nat}
    {s s' : RecordingState} (hclosed : h.closed)
    (hinv : WalkInv h root s) (hstep : walk_step h s = some s') :
    WalkInv h root s' := by
  obtain ⟨hstack, hkeys, hnodup, hclo, hroot⟩ := hinv
  obtain ⟨o, rest, heq, hcase⟩ := walk_step_cases hstep
  have homem : o ∈ h.univ := hstack o (heq ▸ List.mem_cons_self o rest)
  rcases hcase with ⟨hseen, rfl⟩ | ⟨hunseen, rfl⟩
  · have hoseen : o ∈ s.seen := by
      simpa [has_been_seen_during_subgraph_recording] using hseen
    refine ⟨?_, hkeys, hnodup, ?_, ?_⟩
    · intro x hx
      exact hstack x (heq ▸ List.mem_cons_of_mem o hx)
    · intro x hx f hf
      rcases hclo x hx f hf with h1 | h1
      · exact Or.inl h1
      · rw [heq] at h1
        rcases List.mem_cons.mp h1 with rfl | h1
        · exact Or.inl hoseen
        · exact Or.inr h1
    · rcases hroot with h1 | h1
      · exact Or.inl h1
      · rw [heq] at h1
        rcases List.mem_cons.mp h1 with rfl | h1
        · exact Or.inl hoseen
        · exact Or.inr h1
  · have honotseen : o ∉ s.seen := by
      simpa [has_been_seen_during_subgraph_recording] using hunseen
    refine ⟨?_, ?_, ?_, ?_, ?_⟩
    · intro x hx
      rcases List.mem_append.mp hx with h1 | h1
      · exact hclosed o homem x h1
      · exact hstack x (heq ▸ List.mem_cons_of_mem o h1)
    · simpa using congrArg (List.cons o) hkeys
    · exact List.nodup_cons.mpr ⟨honotseen, hnodup⟩
    · intro x hx f hf
      rcases List.mem_cons.mp hx with rfl | hx
      · exact Or.inr (List.mem_append.mpr (Or.inl hf))
      · rcases hclo x hx f hf with h1 | h1
        · exact Or.inl (List.mem_cons_of_mem o h1)
        · rw [heq] at h1
          rcases List.mem_cons.mp h1 with rfl | h1
          · exact Or.inl (List.mem_cons_self f s.seen)
          · exact Or.inr (List.mem_append.mpr (Or.inr h1))
    · rcases hroot with h1 | h1
      · exact Or.inl (List.mem_cons_of_mem o h1)
      · rw [heq] at h1
        rcases List.mem_cons.mp h1 with rfl | h1
        · exact Or.inl (List.mem_cons_self root s.seen)
        · exact Or.inr (List.mem_append.mpr (Or.inr h1))

/-- One walk step strictly decreases the termination measure. -/
theorem walk_step_measure_lt {h : LiveHeap} {s s' : RecordingState}
    (hstack : ∀ x ∈ s.stack, x ∈ h.univ)
    (hstep : walk_step h s = some s') :
    walk_measure h s' < walk_measure h s := by
  obtain ⟨o, rest, heq, hcase⟩ := walk_step_cases hstep
  have homem : o ∈ h.univ := hstack o (heq ▸ List.mem_cons_self o rest)
  rcases hcase with ⟨hseen, hs'⟩ | ⟨hunseen, hs'⟩
  · subst hs'
    unfold walk_measure unseen_count
    rw [heq]
    simp
  · have honotseen : o ∉ s.seen := by
      simpa [has_been_seen_during_subgraph_recording] using hunseen
    have hseen' : s'.seen = o :: s.seen := by rw [hs']
    have hstk' : s'.stack = h.fields o ++ rest := by rw [hs']
    have hu : unseen_count h s' < unseen_count h s := by
      unfold unseen_count
      rw [hseen']
      apply length_filter_lt_of_witness (o := o)
      · intro x hx
        simp only [List.contains_cons, Bool.not_or, Bool.and_eq_true,
          Bool.not_eq_true'] at hx ⊢
        exact hx.2
      · exact homem
      · simp [honotseen]
      · simp
    have hf : (h.fields o).length < fields_bound h := by
      unfold fields_bound
      have hmem : (h.fields o).length ∈
          h.univ.map (fun x => (h.fields x).length) :=
        List.mem_map_of_mem _ homem
      have := le_foldr_max hmem
      omega
    have hm' : walk_measure h s' =
        unseen_count h s' * fields_bound h +
          ((h.fields o).length + rest.length) := by
      unfold walk_measure
      rw [hstk']
      simp
    have hms : walk_measure h s =
        unseen_count h s * fields_bound h + (rest.length + 1) := by
      unfold walk_measure
      rw [heq]
      simp
    rw [hm', hms]
    have hmul : (unseen_count h s' + 1) * fields_bound h ≤
        unseen_count h s * fields_bound h :=
      Nat.mul_le_mul_right _ (Nat.succ_le_of_lt hu)
    have hexp : (unseen_count h s' + 1) * fields_bound h =
        unseen_count h s' * fields_bound h + fields_bound h := by ring
    omega

/-- Running the walk for at least its measure preserves the invariant and
drains the worklist. -/
theorem walk_run_inv_and_done {h : LiveHeap} {root : Nat}
    (hclosed : h.closed) :
    ∀ (n : Nat) (s : RecordingState), WalkInv h root s →
      walk_measure h s ≤ n →
      WalkInv h root (walk_run h n s) ∧ (walk_run h n s).stack = [] := by
  intro n
  induction n with
  | zero =>
      intro s hinv hm
      have hlen : s.stack.length = 0 := by
        unfold walk_measure at hm
        omega
      exact ⟨hinv, List.length_eq_zero.mp hlen⟩
  | succ k ih =>
      intro s hinv hm
      cases hstep : walk_step h s with
      | none =>
          simp only [walk_run, hstep]
          exact ⟨hinv, walk_step_eq_none.mp hstep⟩
      | some s' =>
          have hinv' := walk_step_preserves_inv hclosed hinv hstep
          have hlt := walk_step_measure_lt hinv.1 hstep
          simp only [walk_run, hstep]
          exact ih s' hinv' (by omega)

/-- With the worklist drained, the invariant puts every object reachable
from the root into the seen-objects table. -/
theorem reachable_mem_seen {h : LiveHeap} {root o : Nat}
    {s : RecordingState} (hinv : WalkInv h root s) (hdone : s.stack = [])
    (hr : Reachable h root o) : o ∈ s.seen := by
  induction hr with
  | refl =>
      rcases hinv.2.2.2.2 with h1 | h1
      · exact h1
      · rw [hdone] at h1
        cases h1
  | step hx hf ihx =>
      rcases hinv.2.2.2.1 _ ihx _ hf with h1 | h1
      · exact h1
      · rw [hdone] at h1
        cases h1

/-- C7: for every closed heap and root value — cyclic graphs included — the
recording walk `archive_reachable_objects_from` drains its worklist within
its finite step budget, and every object reachable from the root (for a
cycle: every object in it) ends up with exactly one archived counterpart in
the Object Cache, with every reference out of a reachable object resolving
through the cache to an archived counterpart. -/
theorem archive_reachable_objects_from_cycle_safe (h : LiveHeap)
    (root : Nat) (hclosed : h.closed) (hroot : root ∈ h.univ) :
    (archive_reachable_objects_from h root).stack = [] ∧
    ∀ o, Reachable h root o →
      ((archive_reachable_objects_from h root).cache.map Prod.fst).count o
          = 1 ∧
      ∀ f ∈ h.fields o,
        find_archived_heap_object
          (archive_reachable_objects_from h root).cache f ≠ none := by
  unfold archive_reachable_objects_from
  have hinv0 : WalkInv h root (initial_recording_state root) := by
    refine ⟨?_, rfl, by simp [initial_recording_state], ?_,
      Or.inr (by simp [initial_recording_state])⟩
    · intro x hx
      simp only [initial_recording_state, List.mem_singleton] at hx
      subst hx
      exact hroot
    · intro x hx
      simp [initial_recording_state] at hx
  obtain ⟨hinvf, hdone⟩ :=
    walk_run_inv_and_done hclosed
      (walk_measure h (initial_recording_state root))
      (initial_recording_state root) hinv0 le_rfl
  refine ⟨hdone, ?_⟩
  intro o hr
  have hseen := reachable_mem_seen hinvf hdone hr
  constructor
  · rw [← hinvf.2.1]
    exact List.count_eq_one_of_mem hinvf.2.2.1 hseen
  · intro f hf hnone
    have hfr : Reachable h root f := Reachable.step hr hf
    have hfseen := reachable_mem_seen hinvf hdone hfr
    have hfkeys := hinvf.2.1 ▸ hfseen
    exact find_archived_heap_object_eq_none.mp hnone hfkeys

/-- Witness for C7 on the two-object cycle 0 referencing 1 referencing 0:
the walk completes, each object has exactly one archived counterpart
(addresses 1 and 2), and the two archived counterparts reference each
other. -/
theorem archive_reachable_objects_from_cycle_safe_witness :
    (cycle_heap 0 1).closed ∧ 0 ∈ (cycle_heap 0 1).univ ∧
    (archive_reachable_objects_from (cycle_heap 0 1) 0).stack = [] ∧
    ((archive_reachable_objects_from (cycle_heap 0 1) 0).cache.map
        Prod.fst).count 0 = 1 ∧
    ((archive_reachable_objects_from (cycle_heap 0 1) 0).cache.map
        Prod.fst).count 1 = 1 ∧
    find_archived_heap_object
      (archive_reachable_objects_from (cycle_heap 0 1) 0).cache 0 =
      some 1 ∧
    find_archived_heap_object
      (archive_reachable_objects_from (cycle_heap 0 1) 0).cache 1 =
      some 2 ∧
    archived_fields (cycle_heap 0 1)
      (archive_reachable_objects_from (cycle_heap 0 1) 0).cache 0 =
      [some 2] ∧
    archived_fields (cycle_heap 0 1)
      (archive_reachable_objects_from (cycle_heap 0 1) 0).cache 1 =
      [some 1] := by
  have hclosed : (cycle_heap 0 1).closed := by
    unfold LiveHeap.closed cycle_heap
    decide
  have hroot : 0 ∈ (cycle_heap 0 1).univ := by
    unfold cycle_heap
    decide
  have h := archive_reachable_objects_from_cycle_safe (cycle_heap 0 1) 0
    hclosed hroot
  have hr0 : Reachable (cycle_heap 0 1) 0 0 := Reachable.refl
  have hr1 : Reachable (cycle_heap 0 1) 0 1 :=
    Reachable.step Reachable.refl (by unfold cycle_heap; decide)
  exact ⟨hclosed, hroot, h.1, (h.2 0 hr0).1, (h.2 1 hr1).1,
    by decide, by decide, by decide, by decide⟩

/-- A walk step reads the heap only at the worklist head, so two heaps that
agree on the universe take identical steps. -/
theorem walk_step_agrees {h1 h2 : LiveHeap} {s : RecordingState}
    (hagree : h1.agrees h2) (hstack : ∀ x ∈ s.stack, x ∈ h1.univ) :
    walk_step h1 s = walk_step h2 s := by
  unfold walk_step
  cases hs : s.stack with
  | nil => simp [hs]
  | cons o rest =>
      have ho : o ∈ h1.univ := hstack o (hs ▸ List.mem_cons_self o rest)
      obtain ⟨hfo, hko⟩ := hagree.2 o ho
      simp only [hs, hfo, hko]

/-- A walk step keeps the worklist inside the universe of a closed heap. -/
theorem walk_step_stack_subset {h : LiveHeap} {s s' : RecordingState}
    (hclosed : h.closed) (hstack : ∀ x ∈ s.stack, x ∈ h.univ)
    (hstep : walk_step h s = some s') : ∀ x ∈ s'.stack, x ∈ h.univ := by
  obtain ⟨o, rest, heq, hcase⟩ := walk_step_cases hstep
  have homem : o ∈ h.univ := hstack o (heq ▸ List.mem_cons_self o rest)
  rcases hcase with ⟨_, rfl⟩ | ⟨_, rfl⟩
  · intro x hx
    exact hstack x (heq ▸ List.mem_cons_of_mem o hx)
  · intro x hx
    rcases List.mem_append.mp hx with h1 | h1
    · exact hclosed o homem x h1
    · exact hstack x (heq ▸ List.mem_cons_of_mem o h1)

/-- Two heaps that agree on the universe produce identical walk runs from
any state whose worklist lies in the universe. -/
theorem walk_run_agrees {h1 h2 : LiveHeap} (hagree : h1.agrees h2)
    (hclosed : h1.closed) :
    ∀ (n : Nat) (s : RecordingState), (∀ x ∈ s.stack, x ∈ h1.univ) →
      walk_run h1 n s = walk_run h2 n s := by
  intro n
  induction n with
  | zero => intro s _; rfl
  | succ k ih =>
      intro s hstack
      have hcong := walk_step_agrees hagree hstack
      simp only [walk_run, ← hcong]
      cases hstep : walk_step h1 s with
      | none => rfl
      | some s' => exact ih s' (walk_step_stack_subset hclosed hstack hstep)

/-- Two heaps that agree on the universe give every state the same walk
measure. -/
theorem walk_measure_agrees {h1 h2 : LiveHeap} (hagree : h1.agrees h2)
    (s : RecordingState) : walk_measure h1 s = walk_measure h2 s := by
  obtain ⟨hu, hper⟩ := hagree
  unfold walk_measure unseen_count fields_bound
  rw [← hu]
  have hmap : h1.univ.map (fun o => (h1.fields o).length) =
      h1.univ.map (fun o => (h2.fields o).length) :=
    List.map_congr_left (fun o ho => by rw [(hper o ho).1])
  rw [← hmap]

/-- C9: the recording pipeline is a deterministic function of the live state
it walks — recording the same root class's entry field over two heaps with
byte-identical live state (the same universe, references, and classes,
whatever the heaps hold outside the universe) produces structurally
identical archived subgraph records. -/
theorem record_subgraph_from_static_field_deterministic
    (h1 h2 : LiveHeap) (k field_offset entry_value : Nat)
    (is_closed_archive ipp : Bool) (hclosed : h1.closed)
    (hagree : h1.agrees h2) (hentry : entry_value ∈ h1.univ) :
    record_subgraph_from_static_field h1 k field_offset entry_value
      is_closed_archive ipp =
    record_subgraph_from_static_field h2 k field_offset entry_value
      is_closed_archive ipp := by
  have hwalk : archive_reachable_objects_from h1 entry_value =
      archive_reachable_objects_from h2 entry_value := by
    unfold archive_reachable_objects_from
    rw [← walk_measure_agrees hagree]
    apply walk_run_agrees hagree hclosed
    intro x hx
    simp only [initial_recording_state, List.mem_singleton] at hx
    subst hx
    exact hentry
  unfold record_subgraph_from_static_field
  rw [hwalk]

/-- Witness for C9: the two-object cycle recorded over two heaps that agree
on the universe but differ at address 99 (outside it) yields the same
record. -/
theorem record_subgraph_from_static_field_deterministic_witness :
    (cycle_heap 0 1).closed ∧
    (cycle_heap 0 1).agrees cycle_heap_variant ∧
    record_subgraph_from_static_field (cycle_heap 0 1) 3 12 0 true false =
      record_subgraph_from_static_field cycle_heap_variant 3 12 0 true
        false := by
  have hclosed : (cycle_heap 0 1).closed := by
    unfold LiveHeap.closed cycle_heap
    decide
  have hagree : (cycle_heap 0 1).agrees cycle_heap_variant := by
    unfold LiveHeap.agrees cycle_heap cycle_heap_variant
    decide
  exact ⟨hclosed, hagree,
    record_subgraph_from_static_field_deterministic (cycle_heap 0 1)
      cycle_heap_variant 3 12 0 true false hclosed hagree
      (by unfold cycle_heap; decide)⟩
